import Mathlib

/-!
Verification development for the AstraForge extraction scripts.

The embedded program is `src/temp_folder/extract_astraforge.py`: a path
validator `validate_safe_path(user_path, base_dir)` and a document splitter
`extract_files(response_text, output_dir)`.

Modelling conventions:
* Python strings are `List Char` (Unicode code points).
* The script targets Windows (it reads `C:\Users\...\response.txt` and guards
  Windows reserved device names), so `os.path` is modelled as CPython's
  `ntpath` module (classic implementation, as in CPython 3.10): `os.sep` is
  a backslash, `isabs`/`splitdrive`/`join`/`normpath` follow `ntpath`, and
  `abspath` is modelled by ntpath's portable fallback
  `normpath(join(getcwd(), p))`; the process working directory is threaded as
  an explicit `cwd` parameter.
* `str.strip`, `str.upper` and the regex class `\w` are modelled over ASCII
  (the reserved-name set and all marker grammars are ASCII, so no claim is
  affected by the Unicode extensions of these operations).
* File-system effects are modelled as data: `extract_files` returns the
  ordered log and the ordered list of `(path, data)` writes; `os.makedirs`,
  the final log-file write and `print` have no observable effect on those and
  are omitted.
-/

/-! ## Basic character helpers -/

/-- The backslash character, Python `'\\'`. -/
def bsChar : Char := '\\'

/-- The forward slash character. -/
def fsChar : Char := '/'

/-- The backtick character (code point 96), written via `Char.ofNat`. -/
def btChar : Char := Char.ofNat 96

/-- Three backticks: the fence delimiter of the regex `(?:\w+)?\n(.*?)` block. -/
def bt3 : List Char := [btChar, btChar, btChar]

/-- Test for the backtick character. -/
def isBt (c : Char) : Bool := c == btChar

/-- A path separator in `ntpath` semantics: backslash or forward slash. -/
def isNtSep (c : Char) : Bool := c == '\\' || c == '/'

/-- ASCII whitespace stripped by Python `str.strip()` (modelled over ASCII). -/
def isPyWs (c : Char) : Bool :=
  c == ' ' || c == '\t' || c == '\n' || c == '\r' || c == '\x0b' || c == '\x0c'

/-- ASCII model of the regex class `\w`: letters, digits, underscore. -/
def isWordChar (c : Char) : Bool := c.isAlphanum || c == '_'

/-! ## Python string primitives -/

/-- Line 19: `''.join(c for c in user_path if ord(c) >= 32)`. -/
def stripControl (s : List Char) : List Char := s.filter (fun c => 32 ≤ c.toNat)

/-- Drop matching characters from the end of a list (for `strip`). -/
def dropTrailingWhile (p : Char → Bool) (l : List Char) : List Char :=
  (l.reverse.dropWhile p).reverse

/-- Python `s.strip(c)` for a single strip character `c`. -/
def pyStripChar (l : List Char) (c : Char) : List Char :=
  dropTrailingWhile (fun x => x == c) (l.dropWhile (fun x => x == c))

/-- Python `s.strip()` (ASCII whitespace model). -/
def pyStrip (l : List Char) : List Char :=
  dropTrailingWhile isPyWs (l.dropWhile isPyWs)

/-- Python `s.replace('\\', '/')` — a character map. -/
def bsToSlash (c : Char) : Char := if c == '\\' then '/' else c

/-- Python `s.replace('//', '/')`: one left-to-right non-overlapping pass. -/
def collapseDS : List Char → List Char
  | a :: b :: rest =>
    if a == '/' && b == '/' then a :: collapseDS rest
    else a :: collapseDS (b :: rest)
  | l => l

/-- Python `s.split(c)` on a single character. -/
def splitOnCharGo (c : Char) (cur : List Char) : List Char → List (List Char)
  | [] => [cur.reverse]
  | x :: t => if x == c then cur.reverse :: splitOnCharGo c [] t
              else splitOnCharGo c (x :: cur) t

/-- Python `s.split(c)` on a single character (entry point). -/
def splitOnChar (c : Char) (s : List Char) : List (List Char) := splitOnCharGo c [] s

/-- Fuelled worker for Python `s.split(sep)` with a substring separator.
The scanner consumes at least one character per step, so `s.length + 1`
fuel always suffices; the fuel-0 fallback is unreachable at that budget. -/
def splitSubGo (sep : List Char) : Nat → List Char → List Char → List (List Char)
  | 0, cur, s => [cur.reverse ++ s]
  | fuel + 1, cur, s =>
    if sep ≠ [] ∧ sep.isPrefixOf s then
      cur.reverse :: splitSubGo sep fuel [] (s.drop sep.length)
    else
      match s with
      | [] => [cur.reverse]
      | x :: t => splitSubGo sep fuel (x :: cur) t

/-- Python `s.split(sep)` for a substring separator `sep`. -/
def splitOnSub (sep s : List Char) : List (List Char) :=
  splitSubGo sep (s.length + 1) [] s

/-! ## The `ntpath` model (classic CPython implementation) -/

/-- First index `≥ start` holding a path separator (either slash), i.e.
`normp.find('\\', start)` after `normp = p.replace('/', '\\')`. -/
def findSepIdx : List Char → Option Nat
  | [] => none
  | c :: t => if isNtSep c then some 0 else (findSepIdx t).map (· + 1)

/-- `find` from a start offset, in terms of `findSepIdx`. -/
def findSepFrom (p : List Char) (start : Nat) : Option Nat :=
  (findSepIdx (p.drop start)).map (· + start)

/-- Helper for `splitdrive`'s test `normp[2:3] != '\\'`. -/
def thirdNotSep : List Char → Bool
  | c :: _ => ! isNtSep c
  | [] => true

/-- `ntpath.splitdrive(p)`: split a Windows path into `(drive, rest)`,
handling drive letters (`X:`) and UNC shares (`\\host\share`). -/
def splitdrive : List Char → List Char × List Char
  | a :: b :: rest =>
    if isNtSep a && isNtSep b && thirdNotSep rest then
      match findSepFrom (a :: b :: rest) 2 with
      | none => ([], a :: b :: rest)
      | some i =>
        match findSepFrom (a :: b :: rest) (i + 1) with
        | none => (a :: b :: rest, [])
        | some i2 =>
          if i2 = i + 1 then ([], a :: b :: rest)
          else ((a :: b :: rest).take i2, (a :: b :: rest).drop i2)
    else if b == ':' then ([a, b], (a :: b :: rest).drop 2)
    else ([], a :: b :: rest)
  | p => ([], p)

/-- `ntpath.isabs(p)` (classic): the rest after the drive starts with a
separator. -/
def ntIsabs (p : List Char) : Bool :=
  match (splitdrive p).2 with
  | [] => false
  | c :: _ => isNtSep c

/-- `p.replace('/', '\\')`. -/
def ntNormSlashes (p : List Char) : List Char :=
  p.map (fun c => if c == '/' then '\\' else c)

/-- Does the list end with a path separator? -/
def lastIsSep (l : List Char) : Bool :=
  match l.getLast? with
  | some c => isNtSep c
  | none => false

/-- Does the list start with a path separator? -/
def headIsSep : List Char → Bool
  | c :: _ => isNtSep c
  | [] => false

/-- ASCII lower-casing of a list (Python `str.lower` on drive letters). -/
def lowerL (l : List Char) : List Char := l.map Char.toLower

/-- The relative-append step of `ntpath.join`: add a separator if needed,
then append the second path. -/
def relAppend (rp pp : List Char) : List Char :=
  (if rp ≠ [] ∧ ¬ lastIsSep rp then rp ++ ['\\'] else rp) ++ pp

/-- `ntpath.join(path, p)` for exactly two arguments. -/
def ntJoin (path p : List Char) : List Char :=
  let rd := splitdrive path
  let pd := splitdrive p
  let result :=
    if headIsSep pd.2 then
      ((if pd.1 ≠ [] ∨ rd.1 = [] then pd.1 else rd.1), pd.2)
    else if pd.1 ≠ [] ∧ pd.1 ≠ rd.1 then
      (if lowerL pd.1 ≠ lowerL rd.1 then (pd.1, pd.2)
       else (pd.1, relAppend rd.2 pd.2))
    else (rd.1, relAppend rd.2 pd.2)
  if result.2 ≠ [] ∧ ¬ headIsSep result.2 ∧ result.1 ≠ [] ∧
      result.1.getLast? ≠ some ':' then
    result.1 ++ ['\\'] ++ result.2
  else result.1 ++ result.2

/-- The component-normalisation loop of `ntpath.normpath`, as a stack fold:
drop empty and `.` components, let `..` pop a previous component (or vanish
at the root, or survive at the front of a relative path). -/
def normComps (rooted : Bool) (acc : List (List Char)) :
    List (List Char) → List (List Char)
  | [] => acc.reverse
  | comp :: rest =>
    if comp = [] ∨ comp = ['.'] then normComps rooted acc rest
    else if comp = ['.', '.'] then
      match acc with
      | a :: acc2 =>
        if a = ['.', '.'] then normComps rooted (comp :: a :: acc2) rest
        else normComps rooted acc2 rest
      | [] =>
        if rooted then normComps rooted [] rest
        else normComps rooted [comp] rest
    else normComps rooted (comp :: acc) rest

/-- `ntpath.normpath(p)` (classic CPython 3.10 implementation). -/
def ntNormpath (p : List Char) : List Char :=
  if ("\\\\.\\".data.isPrefixOf p || "\\\\?\\".data.isPrefixOf p) then p
  else
    let path := ntNormSlashes p
    let sd := splitdrive path
    let pfx := if headIsSep sd.2 then sd.1 ++ ['\\'] else sd.1
    let rest := if headIsSep sd.2 then sd.2.dropWhile (fun c => c == '\\')
                else sd.2
    let comps := normComps (lastIsSep pfx) [] (splitOnChar '\\' rest)
    let comps := if pfx = [] ∧ comps = [] then [['.']] else comps
    pfx ++ List.intercalate ['\\'] comps

/-- `ntpath.abspath(p)` via the portable fallback: absolutise against the
working directory, then normalise. -/
def ntAbspath (cwd p : List Char) : List Char :=
  ntNormpath (if ntIsabs p then p else ntJoin cwd p)

/-! ## `validate_safe_path` (lines 4-58 of `extract_astraforge.py`) -/

/-- Line 22: the traversal substrings checked against the control-stripped
input. -/
def dangerousPatterns : List (List Char) :=
  ["../".data, "..\\".data, "./".data, ".\\".data]

/-- Lines 22-23: `any(pattern in sanitized for pattern in dangerous_patterns)`. -/
def hasDangerous (s : List Char) : Bool :=
  dangerousPatterns.any (fun pat => decide (pat <:+: s))

/-- Line 32: a character survives `re.sub(r'[<>:"|?*\x00-\x1f]', '', s)`. -/
def keepChar (c : Char) : Bool :=
  ! (c == '<' || c == '>' || c == ':' || c == '"' || c == '|' ||
     c == '?' || c == '*' || decide (c.toNat < 32))

/-- Line 43: the Windows reserved device names (already upper-case). -/
def reservedNames : List (List Char) :=
  ["CON".data, "PRN".data, "AUX".data, "NUL".data,
   "COM1".data, "COM2".data, "COM3".data, "COM4".data, "COM5".data,
   "COM6".data, "COM7".data, "COM8".data, "COM9".data,
   "LPT1".data, "LPT2".data, "LPT3".data, "LPT4".data, "LPT5".data,
   "LPT6".data, "LPT7".data, "LPT8".data, "LPT9".data]

/-- Lines 44-46: `part.split('.')[0].upper() in reserved_names` for one
segment (ASCII `upper`). -/
def reservedSeg (seg : List Char) : Bool :=
  reservedNames.contains ((seg.takeWhile (fun c => c != '.')).map Char.toUpper)

/-- Lines 31-35 applied to the control-stripped string: normalise separators,
collapse doubled slashes, drop the dangerous character class, strip outer
slashes. -/
def sanitizeTail (s : List Char) : List Char :=
  pyStripChar (List.filter keepChar (collapseDS (s.map bsToSlash))) '/'

/-- The full sanitisation pipeline (lines 19 and 31-35): the string that
reaches the reserved-name check and is returned on success. -/
def sanitizeStr (p : List Char) : List Char := sanitizeTail (stripControl p)

/-- `validate_safe_path(user_path, base_dir)` (lines 4-58), with the process
working directory `cwd` made explicit for `os.path.abspath`. Returns the
`(is_valid, safe_path)` pair. -/
def validate_safe_path (cwd p base : List Char) : Bool × Option (List Char) :=
  if p = [] then (false, none)
  else
    let s1 := stripControl p
    if hasDangerous s1 then (false, none)
    else if ntIsabs s1 then (false, none)
    else
      let s4 := sanitizeTail s1
      if s4 = [] then (false, none)
      else if (splitOnChar '/' s4).any reservedSeg then (false, none)
      else
        let full := ntNormpath (ntJoin base s4)
        let baseAbs := ntAbspath cwd base
        if ¬ (baseAbs ++ ['\\']).isPrefixOf full ∧ full ≠ baseAbs then
          (false, none)
        else (true, some s4)

/-! ## The section splitter (`re.split` of line 66) -/

/-- Greatest `j ≤ maxJ` at which `pat` occurs in `t` — the greedy `.*`
backtracking of `### src/.*\.ts` (and the `.js` variant), where `maxJ` is
the length of the newline-free span. -/
def lastIdxLE (pat t : List Char) (maxJ : Nat) : Option Nat :=
  ((List.range (maxJ + 1)).filter (fun j => pat.isPrefixOf (t.drop j))).getLast?

/-- Alternative 1 of the split pattern: the literal `'## File: '`.  Note the
declared file name is NOT part of this delimiter. -/
def matchAlt1 (s : List Char) : Option (List Char × List Char) :=
  if "## File: ".data.isPrefixOf s then some ("## File: ".data, s.drop 9)
  else none

/-- Alternatives 2 and 3: a literal start token, a greedy newline-free `.*`,
and a literal tail such as `.ts`/`.js`. -/
def matchAltStar (tok pat s : List Char) : Option (List Char × List Char) :=
  if tok.isPrefixOf s then
    let t := s.drop tok.length
    let lineLen := (t.takeWhile (fun c => c != '\n')).length
    match lastIdxLE pat t lineLen with
    | some j =>
      some (s.take (tok.length + j + pat.length),
            s.drop (tok.length + j + pat.length))
    | none => none
  else none

/-- Alternative 4: the literal `'### media/styles.css'`. -/
def matchAlt4 (s : List Char) : Option (List Char × List Char) :=
  if "### media/styles.css".data.isPrefixOf s then
    some ("### media/styles.css".data, s.drop 20)
  else none

/-- One attempt of the full alternation
`## File: |### src/.*\.ts|### media/.*\.js|### media/styles\.css`
at the current position, alternatives in regex order. -/
def matchMarkerAt (s : List Char) : Option (List Char × List Char) :=
  match matchAlt1 s with
  | some r => some r
  | none =>
    match matchAltStar "### src/".data ".ts".data s with
    | some r => some r
    | none =>
      match matchAltStar "### media/".data ".js".data s with
      | some r => some r
      | none => matchAlt4 s

/-- Fuelled scanner for `re.split` with a capturing group: emit the gap
before each match, the matched delimiter, and the trailing gap.  Each step
consumes at least one character, so `length + 1` fuel always suffices. -/
def scanParts (fuel : Nat) (pending s : List Char) : List (List Char) :=
  match fuel with
  | 0 => [pending.reverse ++ s]
  | fuel + 1 =>
    match matchMarkerAt s with
    | some (tok, rest) => pending.reverse :: tok :: scanParts fuel [] rest
    | none =>
      match s with
      | [] => [pending.reverse]
      | c :: t => scanParts fuel (c :: pending) t

/-- Line 66: `re.split(r'(## File: |### src/.*\.ts|### media/.*\.js|### media/styles\.css)', response_text)`. -/
def pySplit (doc : List Char) : List (List Char) :=
  scanParts (doc.length + 1) [] doc

/-! ## Fenced-block extraction (line 96 of the loop body) -/

/-- The lazy group `(.*?)` before the closing fence: everything up to the
first occurrence of three backticks, or `none` if no fence closes. -/
def takeUntilFence : List Char → Option (List Char)
  | [] => none
  | a :: rest =>
    if bt3.isPrefixOf (a :: rest) then some []
    else (takeUntilFence rest).map (fun g => a :: g)

/-- A full match of ````(?:\w+)?\n(.*?)```` (DOTALL) anchored at the head:
opening fence, maximal word-character run, a newline, then the lazy group. -/
def fenceOpenAt (s : List Char) : Option (List Char) :=
  if bt3.isPrefixOf s then
    let t := s.drop 3
    let tag := t.takeWhile isWordChar
    match t.drop tag.length with
    | c :: body => if c = '\n' then takeUntilFence body else none
    | [] => none
  else none

/-- `re.search` of the fence pattern: leftmost position with a full match,
returning group 1. -/
def reFenceSearch : List Char → Option (List Char)
  | [] => none
  | c :: t =>
    match fenceOpenAt (c :: t) with
    | some g => some g
    | none => reFenceSearch t

/-! ## `extract_files` (lines 60-120) -/

/-- One traceability-log entry: `'Created: {file_path}'` or
`'Skipped dangerous path: {current_file}'`, carrying the interpolated path. -/
inductive LogEntry where
  | created : List Char → LogEntry
  | skipped : List Char → LogEntry
deriving DecidableEq

/-- The observable state of one `extract_files` run: the loop variables and,
as data, the ordered log and the ordered file writes. -/
structure ExtractState where
  current_file : Option (List Char)
  content : List (List Char)
  log : List LogEntry
  writes : List (List Char × List Char)
deriving DecidableEq

/-- `current_file = None`, `content = []`, empty log, no writes. -/
def initState : ExtractState := ⟨none, [], [], []⟩

/-- Python truthiness of `current_file`: `None` and `''` are both falsy. -/
def truthyFile : Option (List Char) → Bool
  | none => false
  | some l => ! l.isEmpty

/-- Lines 76-85 (and 104-113): validate `current_file` and either record a
skip or write `'\n'.join(content).strip()` to `join(output_dir, safe_path)`. -/
def saveCurrent (cwd outdir : List Char) (st : ExtractState) : ExtractState :=
  match st.current_file with
  | none => st
  | some cf =>
    let v := validate_safe_path cwd cf outdir
    if v.1 then
      let fp := ntJoin outdir (v.2.getD [])
      { st with log := st.log ++ [LogEntry.created fp],
                writes := st.writes ++ [(fp, pyStrip (List.intercalate ['\n'] st.content))] }
    else { st with log := st.log ++ [LogEntry.skipped cf] }

/-- Line 73: `part.startswith('## File: ') or part.startswith('### ')`. -/
def isMarkerPart (part : List Char) : Bool :=
  "## File: ".data.isPrefixOf part || "### ".data.isPrefixOf part

/-- Lines 88-92: the declared path taken from a marker part —
`part.split('## File: ')[1].strip()` or `part.split('### ')[1].strip()`. -/
def markerDeclared (part : List Char) : List Char :=
  if "## File: ".data.isPrefixOf part then
    pyStrip ((splitOnSub "## File: ".data part).getD 1 [])
  else
    pyStrip ((splitOnSub "### ".data part).getD 1 [])

/-- Lines 94-100: a non-marker part contributes the first fenced block's
interior if one exists, else the raw part. -/
def extractBody (part : List Char) : List Char :=
  match reFenceSearch part with
  | some g => g
  | none => part

/-- The body of the `for part in sections` loop (lines 70-100). -/
def stepPart (cwd outdir : List Char) (st : ExtractState) (part : List Char) :
    ExtractState :=
  if pyStrip part = [] then st
  else if isMarkerPart part then
    let st1 := if truthyFile st.current_file then saveCurrent cwd outdir st else st
    { st1 with current_file := some (markerDeclared part), content := [] }
  else { st with content := st.content ++ [extractBody part] }

/-- Lines 102-113: `if current_file and content:` save the last file. -/
def finishSave (cwd outdir : List Char) (st : ExtractState) : ExtractState :=
  if truthyFile st.current_file && ! st.content.isEmpty then
    saveCurrent cwd outdir st
  else st

/-- `extract_files(response_text, output_dir)` (lines 60-120): split, fold
the section loop, then the final save.  The log-file write and `print` do
not affect the observable state and are omitted. -/
def extract_files (cwd doc outdir : List Char) : ExtractState :=
  finishSave cwd outdir (List.foldl (stepPart cwd outdir) initState (pySplit doc))

/-! ## Concrete inputs used by the claims -/

/-- A fixed absolute working directory for the model's `os.getcwd()`. -/
def cwd0 : List Char := "C:\\w".data

/-- The end-to-end document of the spec's scenario (§8). -/
def docC1 : List Char :=
  "## File: src/a.ts\n```ts\nconst x=1;\n```\n## File: ../evil.ts\n```ts\nbad\n```\n".data

/-- A document with one explicit-form and one fenced-context-form marker. -/
def docC3 : List Char := "## File: src/a.ts\nX\n### src/b.ts\nY".data

/-- A document whose final (and only) section is a marker with no body. -/
def docC7 : List Char := "### src/a.ts".data

/-- A document with exactly one explicit-form section: marker plus body. -/
def docC8 : List Char := "## File: a.ts\nbody text".data

/-- The spec's fence round-trip body (§8). -/
def bodyC9 : List Char := "intro\n```js\nHELLO\n```\ntrailing".data

/-! ## Shape predicates for the absolute-path analysis (claim C5) -/

/-- Is the second character a colon?  `splitdrive` then reads the first two
characters as a (pseudo-)drive. -/
def secondIsColon : List Char → Bool
  | _ :: b :: _ => b == ':'
  | _ => false

/-- The string is consumed ENTIRELY as a UNC drive by `splitdrive`: two
leading separators, a non-separator, then exactly one further separator and
none after it (e.g. `//server/share`).  `ntpath.isabs` is false on such
strings. -/
def uncWholeDrive (q : List Char) : Bool :=
  match q with
  | a :: b :: rest =>
    isNtSep a && isNtSep b && thirdNotSep rest &&
    (match findSepFrom q 2 with
     | some i => (findSepFrom q (i + 1)).isNone
     | none => false)
  | _ => false

/-- A drive-letter-with-separator head such as `C:\` or `c:/`. -/
def driveSepPfx : List Char → Bool
  | a :: b :: c :: _ => a.isAlpha && b == ':' && isNtSep c
  | _ => false

set_option maxRecDepth 8000

/-! ## Concrete evaluations settling the buggy behaviours -/

/-- C1: on the spec's end-to-end document over output root `out`, the code
produces an EMPTY log and writes nothing — not one Created entry for
`src/a.ts` and one Skipped entry for `../evil.ts`.  The `'## File: '`
delimiter of `re.split` carries no file name, so `current_file` is set to
the empty string at every explicit marker and every save is skipped by the
truthiness guard. -/
theorem C1_end_to_end_empty_log :
    (extract_files cwd0 docC1 "out".data).log = [] ∧
    (extract_files cwd0 docC1 "out".data).writes = [] ∧
    pySplit docC1 =
      ["".data, "## File: ".data, "src/a.ts\n```ts\nconst x=1;\n```\n".data,
       "## File: ".data, "../evil.ts\n```ts\nbad\n```\n".data] := by
  refine ⟨by decide, by decide, by decide⟩

/-- C2: for candidate `src/a.ts`, base `out` and working directory `C:\w`,
the normalised ABSOLUTE form of the join (`C:\w\out\src\a.ts`) does begin
with `abspath(base) + sep` (`C:\w\out\`), so the claim says validation
succeeds; but the code compares the non-absolutised
`normpath(join(base, p))` (`out\src\a.ts`) against the absolute
`abspath(base)` and rejects. -/
theorem C2_condition6_relative_base_bug :
    ntAbspath cwd0 (ntJoin "out".data "src/a.ts".data) =
      "C:\\w\\out\\src\\a.ts".data ∧
    (ntAbspath cwd0 "out".data ++ ['\\']).isPrefixOf
      (ntAbspath cwd0 (ntJoin "out".data "src/a.ts".data)) = true ∧
    ntNormpath (ntJoin "out".data "src/a.ts".data) = "out\\src\\a.ts".data ∧
    validate_safe_path cwd0 "src/a.ts".data "out".data = (false, none) := by
  refine ⟨by decide, by decide, by decide, by decide⟩

/-- C3: splitting `docC3` yields the bare delimiter `'## File: '` as the
explicit-form marker part, and the declared path the code computes from it
(lines 88-89) is the EMPTY string, not the text `src/a.ts` that follows the
marker; for the fenced-context form the declared path is the matched token
after `'### '` as claimed. -/
theorem C3_declared_path_form_a_bug :
    pySplit docC3 =
      ["".data, "## File: ".data, "src/a.ts\nX\n".data,
       "### src/b.ts".data, "\nY".data] ∧
    markerDeclared "## File: ".data = [] ∧
    markerDeclared "### src/b.ts".data = "src/b.ts".data := by
  refine ⟨by decide, by decide, by decide⟩

/-- C8: on a document with exactly one explicit-form section (a marker part
followed by one body part), the processed log is empty — zero entries for
one raw section, refuting one-entry-per-section. -/
theorem C8_one_section_zero_entries :
    pySplit docC8 = ["".data, "## File: ".data, "a.ts\nbody text".data] ∧
    (extract_files cwd0 docC8 "out".data).log = [] ∧
    (extract_files cwd0 docC8 "out".data).writes = [] := by
  refine ⟨by decide, by decide, by decide⟩

/-- C5 counterexample: `//server/share` begins with a forward slash, yet
`validate_safe_path` ACCEPTS it (returning `server/share`): classic
`ntpath.splitdrive` consumes the whole string as a UNC drive, so
`ntpath.isabs` is false, and the later sanitisation strips the slashes. -/
theorem C5_unc_counterexample :
    "//server/share".data.head? = some '/' ∧
    validate_safe_path cwd0 "//server/share".data "C:\\out".data =
      (true, some "server/share".data) := by
  refine ⟨by decide, by decide⟩

/-- C7 counterexample: for a document that is exactly one marker with no
trailing body, the code produces NO log entry and writes NO file, although
the declared path `src/a.ts` is accepted by the validator under the same
root — the final save is guarded by `if current_file and content:` and the
trailing section's content list is empty. -/
theorem C7_trailing_marker_counterexample :
    pySplit docC7 = ["".data, "### src/a.ts".data, "".data] ∧
    (extract_files cwd0 docC7 "C:\\out".data).log = [] ∧
    (extract_files cwd0 docC7 "C:\\out".data).writes = [] ∧
    (validate_safe_path cwd0 "src/a.ts".data "C:\\out".data).1 = true := by
  refine ⟨by decide, by decide, by decide, by decide⟩

/-! ## Helper lemmas -/

/-- A reject before any later step: the claim proofs repeatedly reduce the
validator's `if` chain. -/
theorem validate_of_empty (cwd base : List Char) :
    validate_safe_path cwd [] base = (false, none) := by
  simp [validate_safe_path]

/-- If the control-stripped input matches a traversal pattern, the second
check fires. -/
theorem validate_of_dangerous (cwd p base : List Char)
    (hd : hasDangerous (stripControl p) = true) :
    validate_safe_path cwd p base = (false, none) := by
  by_cases hp : p = []
  · subst hp; simp [validate_safe_path]
  · simp [validate_safe_path, hp, hd]

/-- If the control-stripped input is `ntpath`-absolute, the third check
fires (whether or not a traversal pattern also matches). -/
theorem validate_of_isabs (cwd p base : List Char)
    (ha : ntIsabs (stripControl p) = true) :
    validate_safe_path cwd p base = (false, none) := by
  by_cases hp : p = []
  · subst hp; simp [validate_safe_path]
  · by_cases hd : hasDangerous (stripControl p)
    · simp [validate_safe_path, hp, hd]
    · simp [validate_safe_path, hp, hd, ha]

/-- C4: any input whose control-stripped form contains a traversal sequence
(`../`, `..\`, `./` or `.\`) as a literal substring is rejected, for every
base directory and working directory. -/
theorem C4_traversal_substring_rejected (cwd p base : List Char)
    (h : "../".data <:+: stripControl p ∨ "..\\".data <:+: stripControl p ∨
         "./".data <:+: stripControl p ∨ ".\\".data <:+: stripControl p) :
    validate_safe_path cwd p base = (false, none) := by
  apply validate_of_dangerous
  simp only [hasDangerous, dangerousPatterns, List.any_cons, List.any_nil,
    Bool.or_eq_true, decide_eq_true_eq]
  rcases h with h | h | h | h
  · exact Or.inl h
  · exact Or.inr (Or.inl h)
  · exact Or.inr (Or.inr (Or.inl h))
  · exact Or.inr (Or.inr (Or.inr (Or.inl h)))

/-- Witness for C4 at the traversal input `a/../b`. -/
theorem C4_traversal_substring_rejected_witness :
    validate_safe_path cwd0 "a/../b".data "C:\\out".data = (false, none) :=
  C4_traversal_substring_rejected cwd0 "a/../b".data "C:\\out".data
    (Or.inl (by decide))

/-- C6: if some `/`-delimited segment of the sanitised form, with everything
from its first `.` on stripped, upper-cases to a reserved device name, the
validator rejects. -/
theorem C6_reserved_name_rejected (cwd p base : List Char)
    (h : ∃ seg ∈ splitOnChar '/' (sanitizeStr p), reservedSeg seg = true) :
    validate_safe_path cwd p base = (false, none) := by
  by_cases hp : p = []
  · subst hp; simp [validate_safe_path]
  · by_cases hd : hasDangerous (stripControl p)
    · exact validate_of_dangerous cwd p base hd
    · by_cases ha : ntIsabs (stripControl p)
      · exact validate_of_isabs cwd p base ha
      · have hany : (splitOnChar '/' (sanitizeTail (stripControl p))).any
            reservedSeg = true := List.any_eq_true.mpr h
        by_cases he : sanitizeTail (stripControl p) = []
        · simp [validate_safe_path, hp, hd, ha, he]
        · simp [validate_safe_path, hp, hd, ha, he, hany]

/-- Witness for C6 at the reserved-name input `sub/NUL/file.ts`. -/
theorem C6_reserved_name_rejected_witness :
    validate_safe_path cwd0 "sub/NUL/file.ts".data "C:\\out".data =
      (false, none) :=
  C6_reserved_name_rejected cwd0 "sub/NUL/file.ts".data "C:\\out".data
    ⟨"NUL".data, by decide, by decide⟩

/-- The head of a `dropWhile` result never satisfies the predicate. -/
theorem head?_dropWhile_ne {p : Char → Bool} {l : List Char} {a : Char}
    (h : (l.dropWhile p).head? = some a) : p a = false := by
  induction l with
  | nil => simp [List.dropWhile] at h
  | cons x t ih =>
    by_cases hx : p x
    · rw [List.dropWhile_cons_of_pos hx] at h; exact ih h
    · rw [List.dropWhile_cons_of_neg hx] at h
      simp only [List.head?_cons, Option.some.injEq] at h
      subst h; exact Bool.of_not_eq_true hx

/-- `dropTrailingWhile` yields a prefix of its input. -/
theorem dropTrailingWhile_isPre (p : Char → Bool) (l : List Char) :
    dropTrailingWhile p l <+: l := by
  unfold dropTrailingWhile
  have h := List.dropWhile_suffix (l := l.reverse) p
  have h2 := List.reverse_prefix.mpr h
  rwa [List.reverse_reverse] at h2

/-- The last element of a `dropTrailingWhile` result never satisfies the
predicate. -/
theorem getLast?_dropTrailingWhile_ne {p : Char → Bool} {l : List Char}
    {a : Char} (h : (dropTrailingWhile p l).getLast? = some a) : p a = false := by
  unfold dropTrailingWhile at h
  rw [List.getLast?_reverse] at h
  exact head?_dropWhile_ne h

/-- A nonempty prefix has the same head. -/
theorem IsPrefix.head?_eq {l₁ l₂ : List Char} (h : l₁ <+: l₂) (hne : l₁ ≠ []) :
    l₁.head? = l₂.head? := by
  obtain ⟨t, rfl⟩ := h
  cases l₁ with
  | nil => exact absurd rfl hne
  | cons a l => simp

/-- Membership survives `pyStripChar`. -/
theorem mem_pyStripChar {l : List Char} {c a : Char}
    (h : a ∈ pyStripChar l c) : a ∈ l := by
  unfold pyStripChar at h
  have h1 := (dropTrailingWhile_isPre (fun x => x == c)
    (l.dropWhile (fun x => x == c))).sublist.mem h
  exact (List.dropWhile_sublist (fun x => x == c)).mem h1

/-- Every character of a `collapseDS` result occurs in the input. -/
theorem mem_collapseDS {l : List Char} {a : Char} (h : a ∈ collapseDS l) :
    a ∈ l := by
  induction l using collapseDS.induct with
  | case1 x y rest hxy ih =>
    rw [collapseDS, if_pos hxy] at h
    rcases List.mem_cons.mp h with h | h
    · exact h ▸ List.mem_cons_self _ _
    · exact List.mem_cons_of_mem _ (List.mem_cons_of_mem _ (ih h))
  | case2 x y rest hxy ih =>
    rw [collapseDS, if_neg hxy] at h
    rcases List.mem_cons.mp h with h | h
    · exact h ▸ List.mem_cons_self _ _
    · exact List.mem_cons_of_mem _ (ih h)
  | case3 l hshape =>
    cases l with
    | nil => exact h
    | cons x t =>
      cases t with
      | nil => exact h
      | cons y t2 => exact (hshape x y t2 rfl).elim

/-- Characters surviving the sanitisation keep `keepChar` and come from the
backslash-to-slash map. -/
theorem mem_sanitizeTail {l : List Char} {c : Char} (h : c ∈ sanitizeTail l) :
    keepChar c = true ∧ c ∈ l.map bsToSlash := by
  unfold sanitizeTail at h
  have h1 := mem_pyStripChar h
  rcases List.mem_filter.mp h1 with ⟨h2, hk⟩
  exact ⟨hk, mem_collapseDS h2⟩

/-- C10: every accepted `safe_path` is nonempty, free of backslashes, of the
characters `< > : " | ? *`, and of control characters, and has neither a
leading nor a trailing forward slash. -/
theorem C10_accepted_path_invariant (cwd p base s : List Char)
    (h : validate_safe_path cwd p base = (true, some s)) :
    s ≠ [] ∧
    (∀ c ∈ s, c ≠ '\\' ∧
       c ∉ (['<', '>', ':', '"', '|', '?', '*'] : List Char) ∧ 32 ≤ c.toNat) ∧
    s.head? ≠ some '/' ∧ s.getLast? ≠ some '/' := by
  simp only [validate_safe_path] at h
  split_ifs at h with h1 h2 h3 h4 h5 h6 <;> simp at h
  subst h
  have hne := h4
  refine ⟨hne, ?_, ?_, ?_⟩
  · intro c hc
    obtain ⟨hk, hmap⟩ := mem_sanitizeTail hc
    simp only [keepChar, Bool.not_eq_true', Bool.or_eq_false_iff,
      beq_eq_false_iff_ne, ne_eq, decide_eq_false_iff_not, Nat.not_lt] at hk
    obtain ⟨⟨⟨⟨⟨⟨h1, h2⟩, h3⟩, h4⟩, h5⟩, h6⟩, h7⟩ := hk.1
    refine ⟨?_, ?_, hk.2⟩
    · rcases List.mem_map.mp hmap with ⟨x, -, rfl⟩
      by_cases hx : x = '\\'
      · subst hx; decide
      · simp [bsToSlash, hx]
    · simp only [List.mem_cons, List.not_mem_nil, or_false, not_or]
      exact ⟨h1, h2, h3, h4, h5, h6, h7⟩
  · intro hh
    unfold sanitizeTail pyStripChar at hh hne
    have hpre := dropTrailingWhile_isPre (fun x => x == '/')
      ((List.filter keepChar (collapseDS ((stripControl p).map bsToSlash))).dropWhile
        (fun x => x == '/'))
    have hhead := (IsPrefix.head?_eq hpre hne).symm.trans hh
    have := head?_dropWhile_ne hhead
    simp at this
  · intro hh
    unfold sanitizeTail pyStripChar at hh
    have := getLast?_dropTrailingWhile_ne hh
    simp at this

/-- Witness for C10 at the accepted input `src/a.ts` against absolute base
`C:\out`. -/
theorem C10_accepted_path_invariant_witness :
    "src/a.ts".data ≠ [] ∧
    (∀ c ∈ "src/a.ts".data, c ≠ '\\' ∧
       c ∉ (['<', '>', ':', '"', '|', '?', '*'] : List Char) ∧ 32 ≤ c.toNat) ∧
    "src/a.ts".data.head? ≠ some '/' ∧ "src/a.ts".data.getLast? ≠ some '/' :=
  C10_accepted_path_invariant cwd0 "src/a.ts".data "C:\\out".data
    "src/a.ts".data (by decide)

/-- A marker part starts with `#`, so its `strip` is nonempty and the loop
cannot skip it as whitespace. -/
theorem pyStrip_marker_ne {m : List Char} (h : isMarkerPart m = true) :
    pyStrip m ≠ [] := by
  have hm : ∃ t, m = '#' :: t := by
    rcases (Bool.or_eq_true _ _).mp h with h' | h'
    · obtain ⟨t, ht⟩ := List.isPrefixOf_iff_prefix.mp h'
      exact ⟨"# File: ".data ++ t, by rw [← ht]; rfl⟩
    · obtain ⟨t, ht⟩ := List.isPrefixOf_iff_prefix.mp h'
      exact ⟨"## ".data ++ t, by rw [← ht]; rfl⟩
  obtain ⟨t, rfl⟩ := hm
  unfold pyStrip
  rw [List.dropWhile_cons_of_neg (by decide)]
  unfold dropTrailingWhile
  intro hnil
  rw [List.reverse_eq_nil_iff, List.dropWhile_eq_nil_iff] at hnil
  exact absurd (hnil '#' (List.mem_reverse.mpr (List.mem_cons_self _ _)))
    (by decide)

/-- Stepping a marker part resets `content` to the empty list. -/
theorem stepPart_marker_content (cwd outdir : List Char) (st : ExtractState)
    {m : List Char} (h : isMarkerPart m = true) :
    (stepPart cwd outdir st m).content = [] := by
  unfold stepPart
  rw [if_neg (pyStrip_marker_ne h), if_pos h]

/-- Stepping a whitespace-only part is the identity. -/
theorem stepPart_ws (cwd outdir : List Char) (st : ExtractState)
    {g : List Char} (h : pyStrip g = []) :
    stepPart cwd outdir st g = st := by
  unfold stepPart
  rw [if_pos h]

/-- C7 (amended): when the section list ends with a marker followed only by
an empty (or whitespace-only) trailing gap, the final save of
`extract_files` contributes nothing — the trailing section is neither
validated nor logged nor written, and the accumulated content is empty. -/
theorem C7_trailing_marker_dropped (cwd outdir doc : List Char)
    (l : List (List Char)) (m g : List Char)
    (h1 : pySplit doc = l ++ [m, g]) (h2 : isMarkerPart m = true)
    (h3 : pyStrip g = []) :
    extract_files cwd doc outdir =
      List.foldl (stepPart cwd outdir) initState (pySplit doc) ∧
    (List.foldl (stepPart cwd outdir) initState (pySplit doc)).content = [] := by
  have hfold : List.foldl (stepPart cwd outdir) initState (pySplit doc) =
      stepPart cwd outdir
        (stepPart cwd outdir (List.foldl (stepPart cwd outdir) initState l) m)
        g := by
    rw [h1, show l ++ [m, g] = (l ++ [m]) ++ [g] by simp,
      List.foldl_append, List.foldl_append]
    rfl
  have hcontent : (List.foldl (stepPart cwd outdir) initState (pySplit doc)).content
      = [] := by
    rw [hfold, stepPart_ws cwd outdir _ h3, stepPart_marker_content cwd outdir _ h2]
  refine ⟨?_, hcontent⟩
  unfold extract_files finishSave
  rw [if_neg]
  intro hcond
  rw [Bool.and_eq_true] at hcond
  rw [hcontent] at hcond
  simp at hcond

/-- Witness for the amended C7 at the single-trailing-marker document. -/
theorem C7_trailing_marker_dropped_witness :
    extract_files cwd0 docC7 "C:\\out".data =
      List.foldl (stepPart cwd0 "C:\\out".data) initState (pySplit docC7) ∧
    (List.foldl (stepPart cwd0 "C:\\out".data) initState (pySplit docC7)).content
      = [] :=
  C7_trailing_marker_dropped cwd0 "C:\\out".data docC7
    ["".data] "### src/a.ts".data "".data (by decide) (by decide) (by decide)

/-- A successful separator search points at a separator. -/
theorem findSepIdx_spec {l : List Char} {j : Nat} (h : findSepIdx l = some j) :
    ∃ c t, l.drop j = c :: t ∧ isNtSep c = true := by
  induction l generalizing j with
  | nil => simp [findSepIdx] at h
  | cons x t ih =>
    unfold findSepIdx at h
    by_cases hx : isNtSep x
    · rw [if_pos hx] at h
      obtain rfl : (0 : Nat) = j := Option.some_inj.mp h
      exact ⟨x, t, rfl, hx⟩
    · rw [if_neg hx] at h
      obtain ⟨j', hj', rfl⟩ := Option.map_eq_some'.mp h
      obtain ⟨c, t', hdrop, hc⟩ := ih hj'
      exact ⟨c, t', by simpa using hdrop, hc⟩

/-- A successful offset search points at a separator at or past the
offset. -/
theorem findSepFrom_spec {p : List Char} {s i : Nat}
    (h : findSepFrom p s = some i) :
    ∃ c t, p.drop i = c :: t ∧ isNtSep c = true := by
  unfold findSepFrom at h
  obtain ⟨j, hj, rfl⟩ := Option.map_eq_some'.mp h
  obtain ⟨c, t, hdrop, hc⟩ := findSepIdx_spec hj
  refine ⟨c, t, ?_, hc⟩
  rw [List.drop_drop] at hdrop
  rwa [Nat.add_comm]

/-- Letters are not path separators. -/
theorem isNtSep_of_alpha {a : Char} (h : a.isAlpha = true) :
    isNtSep a = false := by
  cases hs : isNtSep a
  · rfl
  · exfalso
    rcases (Bool.or_eq_true _ _).mp hs with h' | h' <;> rw [beq_iff_eq] at h' <;>
      subst h' <;> exact absurd h (by decide)

/-- The `ntpath.isabs` analysis behind the amended C5: a leading separator
makes the string absolute unless `splitdrive` consumes it as a pseudo-drive
(second character `:`) or as a whole-string UNC drive; a drive-letter head
followed by a separator is always absolute. -/
theorem ntIsabs_of_shape (q : List Char)
    (h : (headIsSep q = true ∧ secondIsColon q = false ∧
          uncWholeDrive q = false) ∨ driveSepPfx q = true) :
    ntIsabs q = true := by
  match q with
  | [] =>
    rcases h with ⟨h1, -, -⟩ | h1 <;> simp [headIsSep, driveSepPfx] at h1
  | [a] =>
    rcases h with ⟨h1, -, -⟩ | h1
    · simpa [ntIsabs, splitdrive, headIsSep] using h1
    · simp [driveSepPfx] at h1
  | a :: b :: rest =>
    rcases h with ⟨h1, h2, h3⟩ | h1
    · have ha : isNtSep a = true := by simpa [headIsSep] using h1
      have hb' : (b == ':') = false := by simpa [secondIsColon] using h2
      by_cases hb : isNtSep b
      · by_cases h3s : thirdNotSep rest
        · cases hf : findSepFrom (a :: b :: rest) 2 with
          | none => simp [ntIsabs, splitdrive, ha, hb, h3s, hf]
          | some i =>
            cases hf2 : findSepFrom (a :: b :: rest) (i + 1) with
            | none =>
              exfalso
              have hu : uncWholeDrive (a :: b :: rest) = true := by
                simp [uncWholeDrive, ha, hb, h3s, hf, hf2]
              rw [h3] at hu
              exact Bool.false_ne_true hu
            | some i2 =>
              by_cases hi : i2 = i + 1
              · simp [ntIsabs, splitdrive, ha, hb, h3s, hf, hf2, hi]
              · obtain ⟨c, t, hdrop, hc⟩ := findSepFrom_spec hf2
                simp [ntIsabs, splitdrive, ha, hb, h3s, hf, hf2, hi, hdrop, hc]
        · simp [ntIsabs, splitdrive, ha, hb', h3s]
      · simp [ntIsabs, splitdrive, ha, hb, hb']
    · cases rest with
      | nil => simp [driveSepPfx] at h1
      | cons c t =>
        simp only [driveSepPfx, Bool.and_eq_true] at h1
        obtain ⟨⟨hal, hcol⟩, hsep⟩ := h1
        simp [ntIsabs, splitdrive, isNtSep_of_alpha hal, hcol, hsep]

/-- C5 (amended): any input whose control-stripped form starts with a
separator — other than the `splitdrive` pseudo-drive shapes (`//host/share`
consumed whole, or a `:` in second position) — is rejected, as is any input
with a drive-letter-plus-separator head such as `C:\`. -/
theorem C5_absolute_rejected_amended (cwd p base : List Char)
    (h : (headIsSep (stripControl p) = true ∧
          secondIsColon (stripControl p) = false ∧
          uncWholeDrive (stripControl p) = false) ∨
         driveSepPfx (stripControl p) = true) :
    validate_safe_path cwd p base = (false, none) :=
  validate_of_isabs cwd p base (ntIsabs_of_shape _ h)

/-- Witness for the amended C5 at the absolute inputs `/etc/passwd` and
`C:\evil`. -/
theorem C5_absolute_rejected_amended_witness :
    validate_safe_path cwd0 "/etc/passwd".data "C:\\out".data = (false, none) ∧
    validate_safe_path cwd0 "C:\\evil".data "C:\\out".data = (false, none) :=
  ⟨C5_absolute_rejected_amended cwd0 "/etc/passwd".data "C:\\out".data
      (Or.inl ⟨by decide, by decide, by decide⟩),
   C5_absolute_rejected_amended cwd0 "C:\\evil".data "C:\\out".data
      (Or.inr (by decide))⟩

/-- `dropWhile` is `drop` past the `takeWhile` span. -/
theorem dropWhile_eq_drop_len (p : Char → Bool) (t : List Char) :
    t.dropWhile p = t.drop (t.takeWhile p).length := by
  induction t with
  | nil => rfl
  | cons x xs ih =>
    by_cases hx : p x <;>
      simp [List.dropWhile_cons, List.takeWhile_cons, hx, ih]

/-- The lazy group stops at the FIRST closing fence: the body splits as
`g ++ bt3 ++ rest` and no three consecutive backticks start inside `g` or
straddle into the closing fence. -/
theorem takeUntilFence_sound {body g : List Char}
    (h : takeUntilFence body = some g) :
    ∃ rest, body = g ++ bt3 ++ rest ∧ ¬ bt3 <:+: (g ++ [btChar, btChar]) := by
  induction body generalizing g with
  | nil => simp [takeUntilFence] at h
  | cons a rest ih =>
    unfold takeUntilFence at h
    by_cases hp : bt3.isPrefixOf (a :: rest)
    · rw [if_pos hp] at h
      obtain rfl : ([] : List Char) = g := Option.some_inj.mp h
      obtain ⟨r, hr⟩ := List.isPrefixOf_iff_prefix.mp hp
      refine ⟨r, by rw [← hr]; rfl, ?_⟩
      intro hinf
      have hlen := hinf.length_le
      simp [bt3] at hlen
    · rw [if_neg hp] at h
      obtain ⟨g', hg', rfl⟩ := Option.map_eq_some'.mp h
      obtain ⟨r, hr, hmin⟩ := ih hg'
      refine ⟨r, by rw [hr]; simp, ?_⟩
      intro hinf
      rw [show ((a :: g') ++ [btChar, btChar]) = a :: (g' ++ [btChar, btChar])
        from rfl] at hinf
      rcases List.infix_cons_iff.mp hinf with hpre | hinf2
      · rw [show bt3 = btChar :: [btChar, btChar] from rfl] at hpre
        rcases List.cons_prefix_cons.mp hpre with ⟨ha, hpre2⟩
        apply hp
        apply List.isPrefixOf_iff_prefix.mpr
        have htwo : [btChar, btChar] <+: g' ++ bt3 ++ r := by
          match g', hpre2 with
          | [], _ => exact ⟨btChar :: r, rfl⟩
          | [x], hpre2 =>
            rcases List.cons_prefix_cons.mp hpre2 with ⟨hx, -⟩
            subst hx
            exact ⟨btChar :: btChar :: r, rfl⟩
          | x :: y :: g2, hpre2 =>
            rcases List.cons_prefix_cons.mp hpre2 with ⟨hx, hpre3⟩
            rcases List.cons_prefix_cons.mp hpre3 with ⟨hy, -⟩
            subst hx; subst hy
            exact ⟨g2 ++ bt3 ++ r, by simp⟩
        obtain ⟨t2, ht2⟩ := htwo
        refine ⟨t2, ?_⟩
        rw [hr, ← ha]
        rw [show bt3 ++ t2 = btChar :: ([btChar, btChar] ++ t2) from rfl, ht2]
      · exact hmin hinf2

/-- Soundness of an anchored fence match: the input decomposes as opening
fence, all-word tag, newline, the group, the first closing fence, and the
remainder. -/
theorem fenceOpenAt_sound {s g : List Char} (h : fenceOpenAt s = some g) :
    ∃ tag rest, s = bt3 ++ tag ++ ['\n'] ++ g ++ bt3 ++ rest ∧
      (∀ c ∈ tag, isWordChar c = true) ∧
      ¬ bt3 <:+: (g ++ [btChar, btChar]) := by
  simp only [fenceOpenAt] at h
  by_cases hp : bt3.isPrefixOf s
  case neg => rw [if_neg hp] at h; exact absurd h (by simp)
  rw [if_pos hp] at h
  cases hd : (s.drop 3).drop ((s.drop 3).takeWhile isWordChar).length with
  | nil => rw [hd] at h; exact absurd h (by simp)
  | cons c body =>
    rw [hd] at h
    have h2 : (if c = '\n' then takeUntilFence body else none) = some g := h
    by_cases hc : c = '\n'
    case neg => rw [if_neg hc] at h2; exact absurd h2 (by simp)
    rw [if_pos hc] at h2
    subst hc
    obtain ⟨r, hbody, hmin⟩ := takeUntilFence_sound h2
    obtain ⟨t0, ht0⟩ := List.isPrefixOf_iff_prefix.mp hp
    have htt : s.drop 3 = t0 := by
      rw [← ht0]
      exact List.drop_left bt3 t0
    have hts : s.drop 3 =
        ((s.drop 3).takeWhile isWordChar) ++ ('\n' :: body) := by
      conv_lhs => rw [← List.takeWhile_append_dropWhile
        (p := isWordChar) (l := s.drop 3)]
      rw [dropWhile_eq_drop_len, hd]
    refine ⟨(s.drop 3).takeWhile isWordChar, r, ?_,
      fun c hc => List.mem_takeWhile_imp hc, hmin⟩
    have hs : s = bt3 ++ List.drop 3 s := by rw [htt, ht0]
    conv_lhs => rw [hs, hts, hbody]
    simp

/-- C9: whenever the fence search succeeds, the returned group is exactly
the text strictly between the opening fence's line break and the NEXT
closing fence (no earlier triple backtick closes it), the language tag is a
word-character run, and no position before the match admits a full fenced
block — so with several fenced blocks only the first one's interior is
returned. -/
theorem C9_fence_extraction (s g : List Char) (h : reFenceSearch s = some g) :
    ∃ pre tag rest,
      s = pre ++ bt3 ++ tag ++ ['\n'] ++ g ++ bt3 ++ rest ∧
      (∀ c ∈ tag, isWordChar c = true) ∧
      (¬ bt3 <:+: (g ++ [btChar, btChar])) ∧
      (∀ p1 p2 : List Char, pre = p1 ++ p2 → p2 ≠ [] →
        fenceOpenAt (p2 ++ bt3 ++ tag ++ ['\n'] ++ g ++ bt3 ++ rest) = none) := by
  induction s generalizing g with
  | nil => simp [reFenceSearch] at h
  | cons c t ih =>
    unfold reFenceSearch at h
    cases hf : fenceOpenAt (c :: t) with
    | some g0 =>
      rw [hf] at h
      have hgg : some g0 = some g := h
      obtain rfl : g0 = g := Option.some_inj.mp hgg
      obtain ⟨tag, rest, hdec, htag, hmin⟩ := fenceOpenAt_sound hf
      refine ⟨[], tag, rest, by simpa using hdec, htag, hmin, ?_⟩
      intro p1 p2 hp hne
      exact absurd (List.append_eq_nil.mp hp.symm).2 hne
    | none =>
      rw [hf] at h
      have h' : reFenceSearch t = some g := h
      obtain ⟨pre, tag, rest, hdec, htag, hmin, hleft⟩ := ih g h'
      refine ⟨c :: pre, tag, rest, by rw [hdec]; simp, htag, hmin, ?_⟩
      intro p1 p2 hp hne
      cases p1 with
      | nil =>
        rw [List.nil_append] at hp
        have hx : p2 ++ bt3 ++ tag ++ ['\n'] ++ g ++ bt3 ++ rest = c :: t := by
          rw [← hp, hdec]; simp
        rw [hx]
        exact hf
      | cons c1 p1' =>
        rw [List.cons_append] at hp
        exact hleft p1' p2 (List.tail_eq_of_cons_eq hp) hne

/-- Witness for C9: on the spec's round-trip body the search returns exactly
`HELLO\n`, and the characterisation theorem applies to it. -/
theorem C9_fence_extraction_witness :
    reFenceSearch bodyC9 = some "HELLO\n".data ∧
    (∃ pre tag rest,
      bodyC9 = pre ++ bt3 ++ tag ++ ['\n'] ++ "HELLO\n".data ++ bt3 ++ rest ∧
      (∀ c ∈ tag, isWordChar c = true) ∧
      (¬ bt3 <:+: ("HELLO\n".data ++ [btChar, btChar])) ∧
      (∀ p1 p2 : List Char, pre = p1 ++ p2 → p2 ≠ [] →
        fenceOpenAt (p2 ++ bt3 ++ tag ++ ['\n'] ++ "HELLO\n".data ++ bt3 ++ rest)
          = none)) :=
  ⟨by decide, C9_fence_extraction bodyC9 "HELLO\n".data (by decide)⟩
